import Mathlib

/-!
Verification development for the authenticated API access layer of the
portfolio-manager dashboard: the transport/codec layer (`apiClient` in
src/api/client.ts with its key-casing transforms `snakeToCamel`,
`camelToSnake`, `keysToCamel`, `keysToSnake`, `getAuthHeaders`) and the
session lifecycle manager (`restoreSession`, `signIn`, `signOut`,
`clearAuth` in the auth provider).

The embedding is shallow: JavaScript runtime values exchanged with the
backend are modelled by the inductive type `Json` (JSON trees extended
with an `undef` constructor for the JavaScript value `undefined` and an
opaque `date` leaf for `Date` instances, which the key-casing walk must
not descend into).  JavaScript strings are Lean strings (lists of
characters); the two regex replacements are modelled character by
character with the exact non-overlapping left-to-right semantics of
`String.prototype.replace` with a global regex.  `Object.fromEntries`
over `Object.entries(..).map(..)` is modelled by `fromEntries`, which
inserts entries in order into an initially empty object, an insertion
overwriting the value of an existing key in place (JavaScript property
order: first definition fixes the position, last assignment fixes the
value).  `localStorage` is modelled by `Store`, restricted to the three
keys the session layer uses; `localStorage.setItem` coerces its second
argument with the JavaScript string conversion, modelled by `jsString`.
The HTTP exchange underlying one `fetch` call is an oracle value of type
`FetchOutcome`; the parse result of the response text is `Option Json`
(`none` when the text is not valid JSON).  An `async` function either
resolves or rejects; rejection with the transport layer's `ApiError`
class is distinguished from rejection with any other exception
(`ApiOutcome.rejectedOther`, e.g. the `SyntaxError` of a failed
`response.json()` or a `TypeError` from a property read on `undefined`).
-/

/-! ## Characters

`[a-z]` and `[A-Z]` in the source regexes are the ASCII ranges; the
replacement callbacks apply `toUpperCase` / `toLowerCase` to a character
known to lie in the matched range, where they act by shifting the code
point by 32. -/

def isLowerAZ (c : Char) : Bool := 'a' ≤ c && c ≤ 'z'

def isUpperAZ (c : Char) : Bool := 'A' ≤ c && c ≤ 'Z'

/-- `toUpperCase` of a character matched by `[a-z]`. -/
def toUpperAZ (c : Char) : Char := Char.ofNat (c.toNat - 32)

/-- `toLowerCase` of a character matched by `[A-Z]`. -/
def toLowerAZ (c : Char) : Char := Char.ofNat (c.toNat + 32)

/-! ## The two key-casing transforms on strings

`snakeToCamel` models `s.replace(/_([a-z])/g, (_, c) => c.toUpperCase())`:
scanning left to right, each underscore followed by an ASCII lowercase
letter is collapsed into the uppercase letter and the scan resumes after
the match; at a non-match the scan advances one character.
`camelToSnake` models `s.replace(/[A-Z]/g, (c) => "_" + c.toLowerCase())`. -/

def snakeToCamelL : List Char → List Char
  | [] => []
  | '_' :: c :: rest =>
    if isLowerAZ c then toUpperAZ c :: snakeToCamelL rest
    else '_' :: snakeToCamelL (c :: rest)
  | c :: rest => c :: snakeToCamelL rest

def camelToSnakeL : List Char → List Char
  | [] => []
  | c :: rest =>
    if isUpperAZ c then '_' :: toLowerAZ c :: camelToSnakeL rest
    else c :: camelToSnakeL rest

def snakeToCamel (s : String) : String := ⟨snakeToCamelL s.data⟩

def camelToSnake (s : String) : String := ⟨camelToSnakeL s.data⟩

/-! ## Classes of keys

`noUnderscoreL`: camelCase keys as delimited by the specification — no
underscore anywhere.  `goodSnakeL`: snake_case keys whose word boundaries
are exactly a single underscore followed by one ASCII lowercase letter,
and which contain no ASCII uppercase letter. -/

def noUnderscoreL (l : List Char) : Bool := l.all fun c => c ≠ '_'

def noUpperL (l : List Char) : Bool := l.all fun c => !isUpperAZ c

def goodSnakeL : List Char → Bool
  | [] => true
  | '_' :: c :: rest => isLowerAZ c && goodSnakeL rest
  | c :: rest => c ≠ '_' && !isUpperAZ c && goodSnakeL rest

def noUnderscoreKey (s : String) : Bool := noUnderscoreL s.data

def goodSnakeKey (s : String) : Bool := goodSnakeL s.data

/-- The restricted class of keys of the round-trip property: either a
well-formed snake_case key or an underscore-free (camelCase) key. -/
def inClassKey (s : String) : Bool := goodSnakeKey s || noUnderscoreKey s

/-! ## JavaScript values

`Json` models the JavaScript runtime values flowing through the core:
everything `JSON.parse` can produce plus `undefined` (`undef`) and opaque
`Date` instances (`date`, an opaque leaf: the source guards the key walk
with `!(obj instanceof Date)`).  Numbers are modelled as integers — no
claim depends on non-integral numerics. -/

inductive Json where
  | null
  | undef
  | bool (b : Bool)
  | num (n : Int)
  | str (s : String)
  | date (ms : Int)
  | arr (elems : List Json)
  | obj (fields : List (String × Json))

/-! ## Objects as ordered key-value lists

`setEntry o k v` is one JavaScript property assignment `o[k] = v`: it
overwrites the value in place when the key is present and appends the
property otherwise.  `fromEntries` is `Object.fromEntries`: properties
are assigned left to right starting from an empty object. -/

def setEntry {α : Type} : List (String × α) → String → α → List (String × α)
  | [], k, v => [(k, v)]
  | (k', v') :: rest, k, v =>
    if k' = k then (k, v) :: rest else (k', v') :: setEntry rest k v

def fromEntries {α : Type} (l : List (String × α)) : List (String × α) :=
  l.foldl (fun acc p => setEntry acc p.1 p.2) []

/-- Membership of a key in an entry list. -/
def keyMem {α : Type} (k : String) (l : List (String × α)) : Bool :=
  l.any fun p => p.1 = k

/-- The keys of an entry list are pairwise distinct (as in any actual
JavaScript object). -/
def nodupKeys {α : Type} : List (String × α) → Bool
  | [] => true
  | (k, _) :: rest => !keyMem k rest && nodupKeys rest

/-! ## The recursive key rewrites of the transport layer

`keysToCamel` / `keysToSnake` walk arrays and plain objects, rewriting
every object key; `Date` leaves and scalars pass through unchanged.  The
`.obj` case is `Object.fromEntries(Object.entries(obj).map(([k, v]) =>
[rewriteKey(k), rewrite(v)]))`. -/

mutual

def keysToCamel : Json → Json
  | .arr elems => .arr (keysToCamelList elems)
  | .obj fields => .obj (fromEntries (keysToCamelFields fields))
  | x => x

def keysToCamelList : List Json → List Json
  | [] => []
  | x :: xs => keysToCamel x :: keysToCamelList xs

def keysToCamelFields : List (String × Json) → List (String × Json)
  | [] => []
  | (k, v) :: rest => (snakeToCamel k, keysToCamel v) :: keysToCamelFields rest

end

mutual

def keysToSnake : Json → Json
  | .arr elems => .arr (keysToSnakeList elems)
  | .obj fields => .obj (fromEntries (keysToSnakeFields fields))
  | x => x

def keysToSnakeList : List Json → List Json
  | [] => []
  | x :: xs => keysToSnake x :: keysToSnakeList xs

def keysToSnakeFields : List (String × Json) → List (String × Json)
  | [] => []
  | (k, v) :: rest => (camelToSnake k, keysToSnake v) :: keysToSnakeFields rest

end

/-! ## Recursive key predicates over `Json` values -/

mutual

/-- Every object key anywhere in the value lies in the restricted class. -/
def keysInClass : Json → Bool
  | .arr elems => keysInClassList elems
  | .obj fields => keysInClassFields fields
  | _ => true

def keysInClassList : List Json → Bool
  | [] => true
  | x :: xs => keysInClass x && keysInClassList xs

def keysInClassFields : List (String × Json) → Bool
  | [] => true
  | (k, v) :: rest => inClassKey k && keysInClass v && keysInClassFields rest

end

mutual

/-- Every object key anywhere in the value is underscore-free (camelCase). -/
def keysCamel : Json → Bool
  | .arr elems => keysCamelList elems
  | .obj fields => keysCamelFields fields
  | _ => true

def keysCamelList : List Json → Bool
  | [] => true
  | x :: xs => keysCamel x && keysCamelList xs

def keysCamelFields : List (String × Json) → Bool
  | [] => true
  | (k, v) :: rest => noUnderscoreKey k && keysCamel v && keysCamelFields rest

end

mutual

/-- Every object anywhere in the value has pairwise-distinct keys, as any
value produced by `JSON.parse` or written as a JavaScript object literal
does. -/
def wfKeys : Json → Bool
  | .arr elems => wfKeysList elems
  | .obj fields => nodupKeys fields && wfKeysFields fields
  | _ => true

def wfKeysList : List Json → Bool
  | [] => true
  | x :: xs => wfKeys x && wfKeysList xs

def wfKeysFields : List (String × Json) → Bool
  | [] => true
  | (_, v) :: rest => wfKeys v && wfKeysFields rest

end

/-- Inserting entries in order into an accumulator object; `fromEntries l`
is `insertAll [] l`. -/
def insertAll {α : Type} (acc l : List (String × α)) : List (String × α) :=
  l.foldl (fun a p => setEntry a p.1 p.2) acc

/-- Rename every key with `φ` and transform every value with `ψ`. -/
def mapKV {α β : Type} (φ : String → String) (ψ : α → β)
    (l : List (String × α)) : List (String × β) :=
  l.map fun p => (φ p.1, ψ p.2)

/-! ## A membership induction principle for `Json` -/

def Json.indMem (P : Json → Prop)
    (hnull : P .null) (hundef : P .undef) (hbool : ∀ b, P (.bool b))
    (hnum : ∀ n, P (.num n)) (hstr : ∀ s, P (.str s)) (hdate : ∀ d, P (.date d))
    (harr : ∀ elems, (∀ x ∈ elems, P x) → P (.arr elems))
    (hobj : ∀ fields, (∀ p ∈ fields, P p.2) → P (.obj fields)) :
    ∀ x, P x
  | .null => hnull
  | .undef => hundef
  | .bool b => hbool b
  | .num n => hnum n
  | .str s => hstr s
  | .date d => hdate d
  | .arr elems => harr elems (fun x hx =>
      Json.indMem P hnull hundef hbool hnum hstr hdate harr hobj x)
  | .obj fields => hobj fields (fun p hp =>
      Json.indMem P hnull hundef hbool hnum hstr hdate harr hobj p.2)
termination_by x => sizeOf x
decreasing_by
  · exact Nat.lt_trans (List.sizeOf_lt_of_mem hx) (by simp)
  · refine Nat.lt_trans ?_ (Nat.lt_trans (List.sizeOf_lt_of_mem hp) (by simp))
    obtain ⟨a, b⟩ := p
    simp

/-! ## JavaScript value helpers

`lookupEntry` is object property lookup; `jsGet` is the JavaScript property
read `obj[k]` (producing `undefined` on a miss or on a non-object —
the source only reads properties of non-objects behind the optional
chaining operator, or where a `null`/`undefined` base is handled as the
thrown `TypeError`, see `restoreSession`/`signIn`).  `truthy` is
JavaScript boolean coercion on the modelled values; `jsOr` is `a || b`;
`jsString` is the `String(..)` coercion `localStorage.setItem` applies to
its value (a `Date` leaf renders as an opaque marker: its JavaScript
rendering is environment-dependent and never reached by the session
code). -/

def lookupEntry {α : Type} : List (String × α) → String → Option α
  | [], _ => none
  | (k, v) :: rest, key => if k = key then some v else lookupEntry rest key

def getField : Json → String → Option Json
  | .obj fields, key => lookupEntry fields key
  | _, _ => none

def jsGet (j : Json) (k : String) : Json := (getField j k).getD .undef

def truthy : Json → Bool
  | .null => false
  | .undef => false
  | .bool b => b
  | .num n => n ≠ 0
  | .str s => s ≠ ""
  | _ => true

def jsOr (a b : Json) : Json := if truthy a then a else b

def jsNullish : Json → Bool
  | .null => true
  | .undef => true
  | _ => false

mutual

def jsString : Json → String
  | .undef => "undefined"
  | .null => "null"
  | .bool true => "true"
  | .bool false => "false"
  | .num n => toString n
  | .str s => s
  | .date _ => "[Date]"
  | .arr elems => jsStringElems elems
  | .obj _ => "[object Object]"

def jsStringElems : List Json → String
  | [] => ""
  | [x] => if jsNullish x then "" else jsString x
  | x :: xs => (if jsNullish x then "" else jsString x) ++ "," ++ jsStringElems xs

end

/-! ## The transport/codec layer (`client.ts`)

`FetchOutcome` is the oracle describing what the one `fetch` exchange of
an `apiClient` call did: either the promise rejected (connection never
reached a server) or a response arrived with a status, a status text and
a body whose JSON parse result is `body` (`none` when parsing throws —
also the model of an empty body).  `ApiError` is the error class thrown
by the transport layer; its `code`/`message` fields are declared `string`
in the source but at runtime hold whatever JavaScript value the `||`
expressions produce, so the model gives them type `Json`.  `ApiOutcome`
is how the returned promise settles: resolved, rejected with an
`ApiError`, or rejected with any other exception (`rejectedOther` — a
`SyntaxError` from `response.json()` or a `TypeError`). -/

structure ApiError where
  status : Nat
  code : Json
  message : Json

inductive FetchOutcome where
  | networkFailure
  | response (status : Nat) (statusText : String) (body : Option Json)

inductive ApiOutcome where
  | success (v : Json)
  | rejectedApi (e : ApiError)
  | rejectedOther

/-- `response.ok`: status in the inclusive range 200–299. -/
def responseOk (status : Nat) : Bool := 200 ≤ status && status ≤ 299

/-- `getAuthHeaders()`, reading the `access_token` key of the Credential
Record: `if (!token) return {}` treats both a missing key (`null`) and an
empty string as absent. -/
def getAuthHeaders (access_token : Option String) : List (String × String) :=
  match access_token with
  | none => []
  | some t => if t = "" then [] else [("Authorization", "Bearer " ++ t)]

/-- The headers object `{"Content-Type": "application/json",
...getAuthHeaders(), ...headers}`: properties assigned in spread order,
later spreads overwriting earlier keys in place. -/
def buildHeaders (access_token : Option String) (extra : List (String × String)) :
    List (String × String) :=
  fromEntries ([("Content-Type", "application/json")] ++ getAuthHeaders access_token ++ extra)

/-- The response half of `apiClient` as a function of the HTTP exchange's
outcome.  Mirrors the source: a rejected `fetch` becomes
`ApiError(0, "NETWORK_ERROR", "Unable to connect to server")`; a non-ok
status parses the body as `{error: {code, message}}` (a parse failure
leaves the fallback `{}`) and throws
`ApiError(status, errorBody.error?.code || "UNKNOWN",
errorBody.error?.message || response.statusText)` — but the base read
`errorBody.error` is NOT behind optional chaining, so a body that parses
to JSON `null` makes it throw a `TypeError` that escapes
(`rejectedOther`); an ok 204 resolves with `undefined` without touching
the body; any other ok status awaits `response.json()` — a parse failure
there is NOT caught and the `SyntaxError` escapes (`rejectedOther`) —
then evaluates `json.data !== undefined ? json.data : json`, whose
`json.data` read likewise throws an escaping `TypeError` when the body
parsed to JSON `null`, and otherwise resolves with the key-camelized
result (the `data` field when exposed, the whole body when not). -/
def apiClient (f : FetchOutcome) : ApiOutcome :=
  match f with
  | .networkFailure =>
    .rejectedApi ⟨0, .str "NETWORK_ERROR", .str "Unable to connect to server"⟩
  | .response status statusText body =>
    if !responseOk status then
      let errorBody := body.getD (.obj [])
      if jsNullish errorBody then .rejectedOther
      else
        .rejectedApi ⟨status,
          jsOr (jsGet (jsGet errorBody "error") "code") (.str "UNKNOWN"),
          jsOr (jsGet (jsGet errorBody "error") "message") (.str statusText)⟩
    else if status == 204 then
      .success .undef
    else
      match body with
      | none => .rejectedOther
      | some json =>
        if jsNullish json then .rejectedOther
        else
          let data := match getField json "data" with
            | some d => d
            | none => json
          .success (keysToCamel data)

/-! ## The session lifecycle manager (auth provider)

`Store` is `localStorage` restricted to the three keys the session layer
reads and writes (`access_token`, `refresh_token`, `user_email`); a field
holds `none` when the key is absent (`getItem` returns `null`).  Every
`setItem` goes through the `jsString` coercion, exactly as
`localStorage.setItem` stringifies its value.  `RestoreEnv` gives the
outcomes of the up-to-three API calls a `restoreSession` run can issue.
`RestoreResult.user` is the final React `user` state of an uncancelled
run (initialized `null`, so `.null` on paths that never call `setUser`);
`loading` is the final `loading` state — the `finally` block makes it
`false` on every path. -/

structure Store where
  access_token : Option String
  refresh_token : Option String
  user_email : Option String

/-- `clearAuth()`: remove all three keys. -/
def clearAuth (st : Store) : Store :=
  { st with access_token := none, refresh_token := none, user_email := none }

/-- Truthiness of `getItem`'s result: `null` and `""` are falsy. -/
def strTruthy : Option String → Bool
  | none => false
  | some s => s ≠ ""

structure RestoreEnv where
  profile1 : ApiOutcome
  refresh : ApiOutcome
  profile2 : ApiOutcome

structure RestoreResult where
  store : Store
  user : Json
  loading : Bool

/-- `restoreSession()` of the auth provider, for an uncancelled run.  The
decoded payloads delivered by `apiClient` appear as the `.success` values
in `env`.  A `.success` value that is `null`/`undefined` makes the
`profile.id` (respectively `data.access_token`) property read throw a
`TypeError`: in the outer `try` this lands in the non-401 branch of the
`catch`; inside the inner refresh `try` it lands in the inner `catch`,
which clears the Credential Record. -/
def restoreSession (st : Store) (env : RestoreEnv) : RestoreResult :=
  if !strTruthy st.access_token then
    ⟨st, .null, false⟩
  else
    let email := st.user_email.getD ""
    match env.profile1 with
    | .success v =>
      if jsNullish v then ⟨st, .obj [("id", .str "unknown"), ("email", .str email)], false⟩
      else ⟨st, .obj [("id", jsGet v "id"), ("email", .str email)], false⟩
    | .rejectedApi e =>
      if e.status == 401 then
        if !strTruthy st.refresh_token then ⟨clearAuth st, .null, false⟩
        else
          match env.refresh with
          | .success d =>
            if jsNullish d then ⟨clearAuth st, .null, false⟩
            else
              let st1 := { st with
                access_token := some (jsString (jsGet d "access_token")),
                refresh_token := some (jsString (jsGet d "refresh_token")) }
              match env.profile2 with
              | .success v2 =>
                if jsNullish v2 then ⟨clearAuth st1, .null, false⟩
                else ⟨st1, .obj [("id", jsGet v2 "id"), ("email", .str email)], false⟩
              | .rejectedApi _ => ⟨clearAuth st1, .null, false⟩
              | .rejectedOther => ⟨clearAuth st1, .null, false⟩
          | .rejectedApi _ => ⟨clearAuth st, .null, false⟩
          | .rejectedOther => ⟨clearAuth st, .null, false⟩
      else ⟨st, .obj [("id", .str "unknown"), ("email", .str email)], false⟩
    | .rejectedOther => ⟨st, .obj [("id", .str "unknown"), ("email", .str email)], false⟩

inductive SignInResult where
  | ok (st : Store) (user : Json)
  | err (st : Store)

/-- `signIn(email, password)` as a function of the login call's outcome:
the decoded payload is read field by field (`data.access_token`,
`data.refresh_token`, `data.user.email`), each `setItem` stringifying its
value; a rejected call, or a `TypeError` from a `null`/`undefined` base,
propagates (`SignInResult.err` carries the storage state at the throw —
mutations already performed stay).  `signUp` is the same function against
the registration endpoint. -/
def signIn (st : Store) (outcome : ApiOutcome) : SignInResult :=
  match outcome with
  | .rejectedApi _ => .err st
  | .rejectedOther => .err st
  | .success data =>
    if jsNullish data then .err st
    else
      let st1 := { st with access_token := some (jsString (jsGet data "access_token")) }
      let st2 := { st1 with refresh_token := some (jsString (jsGet data "refresh_token")) }
      let u := jsGet data "user"
      if jsNullish u then .err st2
      else .ok { st2 with user_email := some (jsString (jsGet u "email")) } u

/-- `signOut()`: the logout call is awaited under `try { .. } catch {}`,
so every outcome falls through to `clearAuth()` and `setUser(null)`; the
returned pair is the final Credential Record and the value passed to
`setUser`. -/
def signOut (st : Store) (logoutOutcome : ApiOutcome) : Store × Json :=
  match logoutOutcome with
  | .success _ => (clearAuth st, .null)
  | .rejectedApi _ => (clearAuth st, .null)
  | .rejectedOther => (clearAuth st, .null)

/-! ## Character-level lemmas -/

theorem toNat_charOfNat_of_lt {n : Nat} (h : n < 55296) : (Char.ofNat n).toNat = n := by
  unfold Char.ofNat
  rw [dif_pos (Or.inl h)]
  rfl

theorem isLowerAZ_iff {c : Char} : isLowerAZ c = true ↔ 97 ≤ c.toNat ∧ c.toNat ≤ 122 := by
  simp only [isLowerAZ, Bool.and_eq_true, decide_eq_true_eq]
  exact Iff.rfl

theorem isUpperAZ_iff {c : Char} : isUpperAZ c = true ↔ 65 ≤ c.toNat ∧ c.toNat ≤ 90 := by
  simp only [isUpperAZ, Bool.and_eq_true, decide_eq_true_eq]
  exact Iff.rfl

theorem char_eq_of_toNat_eq {a b : Char} (h : a.toNat = b.toNat) : a = b := by
  apply Char.ext
  apply UInt32.ext
  exact h

theorem toNat_toUpperAZ {c : Char} (h : isLowerAZ c = true) :
    (toUpperAZ c).toNat = c.toNat - 32 := by
  have hb := isLowerAZ_iff.mp h
  exact toNat_charOfNat_of_lt (by omega)

theorem toNat_toLowerAZ {c : Char} (h : isUpperAZ c = true) :
    (toLowerAZ c).toNat = c.toNat + 32 := by
  have hb := isUpperAZ_iff.mp h
  exact toNat_charOfNat_of_lt (by omega)

theorem isUpperAZ_toUpperAZ {c : Char} (h : isLowerAZ c = true) :
    isUpperAZ (toUpperAZ c) = true := by
  have hb := isLowerAZ_iff.mp h
  rw [isUpperAZ_iff, toNat_toUpperAZ h]
  omega

theorem isLowerAZ_toLowerAZ {c : Char} (h : isUpperAZ c = true) :
    isLowerAZ (toLowerAZ c) = true := by
  have hb := isUpperAZ_iff.mp h
  rw [isLowerAZ_iff, toNat_toLowerAZ h]
  omega

theorem toLowerAZ_toUpperAZ {c : Char} (h : isLowerAZ c = true) : toLowerAZ (toUpperAZ c) = c := by
  have hb := isLowerAZ_iff.mp h
  apply char_eq_of_toNat_eq
  rw [toNat_toLowerAZ (isUpperAZ_toUpperAZ h), toNat_toUpperAZ h]
  omega

theorem toUpperAZ_toLowerAZ {c : Char} (h : isUpperAZ c = true) : toUpperAZ (toLowerAZ c) = c := by
  have hb := isUpperAZ_iff.mp h
  apply char_eq_of_toNat_eq
  rw [toNat_toUpperAZ (isLowerAZ_toLowerAZ h), toNat_toLowerAZ h]
  omega

theorem toNat_underscore : ('_').toNat = 95 := rfl

theorem not_isUpperAZ_of_isLowerAZ {c : Char} (h : isLowerAZ c = true) :
    isUpperAZ c = false := by
  have hb := isLowerAZ_iff.mp h
  rw [← Bool.not_eq_true, isUpperAZ_iff]
  omega

theorem isLowerAZ_ne_underscore {c : Char} (h : isLowerAZ c = true) : c ≠ '_' := by
  have hb := isLowerAZ_iff.mp h
  intro hc
  rw [hc] at hb
  simp [toNat_underscore] at hb

theorem isUpperAZ_ne_underscore {c : Char} (h : isUpperAZ c = true) : c ≠ '_' := by
  have hb := isUpperAZ_iff.mp h
  intro hc
  rw [hc] at hb
  simp [toNat_underscore] at hb

theorem not_isUpperAZ_underscore : isUpperAZ '_' = false := by
  rw [← Bool.not_eq_true, isUpperAZ_iff]
  simp [toNat_underscore]

/-! ## String-level lemmas about the two transforms -/

theorem s2cL_cons_ne {c : Char} (l : List Char) (h : c ≠ '_') :
    snakeToCamelL (c :: l) = c :: snakeToCamelL l :=
  snakeToCamelL.eq_3 c l (fun _ _ hc _ => h hc)

theorem s2cL_underscore_nil : snakeToCamelL ['_'] = ['_'] :=
  snakeToCamelL.eq_3 '_' [] (fun _ _ _ hr => by simp at hr)

theorem goodSnakeL_cons_ne {c : Char} (l : List Char) (h : c ≠ '_') :
    goodSnakeL (c :: l) = ((c ≠ '_' : Bool) && !isUpperAZ c && goodSnakeL l) :=
  goodSnakeL.eq_3 c l (fun _ _ hc _ => h hc)

theorem noUnderscoreL_cons {c : Char} {l : List Char} :
    noUnderscoreL (c :: l) = true ↔ c ≠ '_' ∧ noUnderscoreL l = true := by
  simp [noUnderscoreL, List.all_cons]

theorem noUpperL_cons {c : Char} {l : List Char} :
    noUpperL (c :: l) = true ↔ isUpperAZ c = false ∧ noUpperL l = true := by
  simp [noUpperL, List.all_cons]

/-- On an underscore-free string the snake-to-camel rewrite finds no match. -/
theorem s2cL_of_noUnderscore {l : List Char} (h : noUnderscoreL l = true) :
    snakeToCamelL l = l := by
  induction l with
  | nil => rfl
  | cons c rest ih =>
    obtain ⟨hc, hrest⟩ := noUnderscoreL_cons.mp h
    rw [s2cL_cons_ne rest hc, ih hrest]

/-- On a string with no ASCII uppercase letter the camel-to-snake rewrite
finds no match. -/
theorem c2sL_of_noUpper {l : List Char} (h : noUpperL l = true) :
    camelToSnakeL l = l := by
  induction l with
  | nil => rfl
  | cons c rest ih =>
    obtain ⟨hc, hrest⟩ := noUpperL_cons.mp h
    rw [camelToSnakeL, hc]
    simp [ih hrest]

/-- A well-formed snake_case string has no ASCII uppercase letter. -/
theorem noUpperL_of_goodSnakeL {l : List Char} (h : goodSnakeL l = true) :
    noUpperL l = true := by
  induction l using goodSnakeL.induct with
  | case1 => rfl
  | case2 c rest ih =>
    rw [goodSnakeL, Bool.and_eq_true] at h
    rw [noUpperL_cons.mpr ⟨not_isUpperAZ_underscore, noUpperL_cons.mpr
      ⟨not_isUpperAZ_of_isLowerAZ h.1, ih h.2⟩⟩]
  | case3 c rest hcl ih =>
    rw [goodSnakeL.eq_3 c rest hcl, Bool.and_eq_true, Bool.and_eq_true] at h
    exact noUpperL_cons.mpr ⟨by simpa using h.1.2, ih h.2⟩

/-- Round trip on underscore-free strings: camel-to-snake then
snake-to-camel restores the string. -/
theorem s2cL_c2sL_of_noUnderscore {l : List Char} (h : noUnderscoreL l = true) :
    snakeToCamelL (camelToSnakeL l) = l := by
  induction l with
  | nil => rfl
  | cons c rest ih =>
    obtain ⟨hc, hrest⟩ := noUnderscoreL_cons.mp h
    rw [camelToSnakeL]
    by_cases hu : isUpperAZ c = true
    · rw [if_pos hu, snakeToCamelL, if_pos (isLowerAZ_toLowerAZ hu),
        toUpperAZ_toLowerAZ hu, ih hrest]
    · rw [if_neg hu, s2cL_cons_ne _ hc, ih hrest]

/-- Round trip on well-formed snake_case strings: snake-to-camel then
camel-to-snake restores the string. -/
theorem c2sL_s2cL_of_goodSnakeL {l : List Char} (h : goodSnakeL l = true) :
    camelToSnakeL (snakeToCamelL l) = l := by
  induction l using goodSnakeL.induct with
  | case1 => rfl
  | case2 c rest ih =>
    rw [goodSnakeL, Bool.and_eq_true] at h
    rw [snakeToCamelL, if_pos h.1, camelToSnakeL, if_pos (isUpperAZ_toUpperAZ h.1),
      toLowerAZ_toUpperAZ h.1, ih h.2]
  | case3 c rest hcl ih =>
    rw [goodSnakeL.eq_3 c rest hcl, Bool.and_eq_true, Bool.and_eq_true] at h
    have hc : c ≠ '_' := by simpa using h.1.1
    have hu : isUpperAZ c = false := by simpa using h.1.2
    rw [s2cL_cons_ne _ hc, camelToSnakeL, hu]
    simp only [Bool.false_eq_true, if_false]
    rw [ih h.2]

/-- Snake-to-camel maps well-formed snake_case strings to underscore-free
strings. -/
theorem noUnderscoreL_s2cL_of_goodSnakeL {l : List Char} (h : goodSnakeL l = true) :
    noUnderscoreL (snakeToCamelL l) = true := by
  induction l using goodSnakeL.induct with
  | case1 => rfl
  | case2 c rest ih =>
    rw [goodSnakeL, Bool.and_eq_true] at h
    rw [snakeToCamelL, if_pos h.1]
    exact noUnderscoreL_cons.mpr
      ⟨isUpperAZ_ne_underscore (isUpperAZ_toUpperAZ h.1), ih h.2⟩
  | case3 c rest hcl ih =>
    rw [goodSnakeL.eq_3 c rest hcl, Bool.and_eq_true, Bool.and_eq_true] at h
    have hc : c ≠ '_' := by simpa using h.1.1
    rw [s2cL_cons_ne _ hc]
    exact noUnderscoreL_cons.mpr ⟨hc, ih h.2⟩

/-- Camel-to-snake output never contains an ASCII uppercase letter. -/
theorem noUpperL_c2sL (l : List Char) : noUpperL (camelToSnakeL l) = true := by
  induction l with
  | nil => rfl
  | cons c rest ih =>
    rw [camelToSnakeL]
    by_cases hu : isUpperAZ c = true
    · rw [if_pos hu]
      exact noUpperL_cons.mpr ⟨not_isUpperAZ_underscore, noUpperL_cons.mpr
        ⟨not_isUpperAZ_of_isLowerAZ (isLowerAZ_toLowerAZ hu), ih⟩⟩
    · rw [if_neg hu]
      exact noUpperL_cons.mpr ⟨by simpa using hu, ih⟩

/-- Camel-to-snake maps underscore-free strings to well-formed snake_case
strings. -/
theorem goodSnakeL_c2sL_of_noUnderscore {l : List Char} (h : noUnderscoreL l = true) :
    goodSnakeL (camelToSnakeL l) = true := by
  induction l with
  | nil => rfl
  | cons c rest ih =>
    obtain ⟨hc, hrest⟩ := noUnderscoreL_cons.mp h
    rw [camelToSnakeL]
    by_cases hu : isUpperAZ c = true
    · rw [if_pos hu, goodSnakeL, Bool.and_eq_true]
      exact ⟨isLowerAZ_toLowerAZ hu, ih hrest⟩
    · rw [if_neg hu, goodSnakeL_cons_ne _ hc, Bool.and_eq_true, Bool.and_eq_true]
      exact ⟨⟨by simpa using hc, by simpa using hu⟩, ih hrest⟩

/-! ## Key-level lemmas (whole strings) -/

theorem string_data_mk (l : List Char) : (String.mk l).data = l := rfl

theorem s2cKey_id_of_noUnderscore {k : String} (h : noUnderscoreKey k = true) :
    snakeToCamel k = k := by
  apply String.ext
  rw [snakeToCamel, string_data_mk, s2cL_of_noUnderscore h]

theorem c2sKey_id_of_goodSnake {k : String} (h : goodSnakeKey k = true) :
    camelToSnake k = k := by
  apply String.ext
  rw [camelToSnake, string_data_mk, c2sL_of_noUpper (noUpperL_of_goodSnakeL h)]

theorem s2cKey_c2sKey_id_of_noUnderscore {k : String} (h : noUnderscoreKey k = true) :
    snakeToCamel (camelToSnake k) = k := by
  apply String.ext
  rw [snakeToCamel, camelToSnake, string_data_mk, string_data_mk,
    s2cL_c2sL_of_noUnderscore h]

theorem c2sKey_s2cKey_id_of_goodSnake {k : String} (h : goodSnakeKey k = true) :
    camelToSnake (snakeToCamel k) = k := by
  apply String.ext
  rw [snakeToCamel, camelToSnake, string_data_mk, string_data_mk,
    c2sL_s2cL_of_goodSnakeL h]

theorem c2sKey_s2cKey_of_inClass {k : String} (h : inClassKey k = true) :
    camelToSnake (snakeToCamel k) = camelToSnake k := by
  rcases Bool.or_eq_true _ _ |>.mp h with hg | hn
  · rw [c2sKey_s2cKey_id_of_goodSnake hg, c2sKey_id_of_goodSnake hg]
  · rw [s2cKey_id_of_noUnderscore hn]

theorem s2cKey_c2sKey_of_inClass {k : String} (h : inClassKey k = true) :
    snakeToCamel (camelToSnake k) = snakeToCamel k := by
  rcases Bool.or_eq_true _ _ |>.mp h with hg | hn
  · rw [c2sKey_id_of_goodSnake hg]
  · rw [s2cKey_c2sKey_id_of_noUnderscore hn, s2cKey_id_of_noUnderscore hn]

theorem noUnderscoreKey_s2cKey_of_inClass {k : String} (h : inClassKey k = true) :
    noUnderscoreKey (snakeToCamel k) = true := by
  rcases Bool.or_eq_true _ _ |>.mp h with hg | hn
  · exact noUnderscoreL_s2cL_of_goodSnakeL hg
  · rw [s2cKey_id_of_noUnderscore hn]
    exact hn

theorem goodSnakeKey_c2sKey_of_inClass {k : String} (h : inClassKey k = true) :
    goodSnakeKey (camelToSnake k) = true := by
  rcases Bool.or_eq_true _ _ |>.mp h with hg | hn
  · rw [c2sKey_id_of_goodSnake hg]
    exact hg
  · exact goodSnakeL_c2sL_of_noUnderscore hn

theorem c2sKey_inj_on_noUnderscore {a b : String} (ha : noUnderscoreKey a = true)
    (hb : noUnderscoreKey b = true) (h : camelToSnake a = camelToSnake b) : a = b := by
  rw [← s2cKey_c2sKey_id_of_noUnderscore ha, ← s2cKey_c2sKey_id_of_noUnderscore hb, h]

theorem s2cKey_inj_on_goodSnake {a b : String} (ha : goodSnakeKey a = true)
    (hb : goodSnakeKey b = true) (h : snakeToCamel a = snakeToCamel b) : a = b := by
  rw [← c2sKey_s2cKey_id_of_goodSnake ha, ← c2sKey_s2cKey_id_of_goodSnake hb, h]

/-! ## Lemmas about `setEntry`, `fromEntries`, `insertAll` and `mapKV` -/

theorem fromEntries_eq_insertAll {α : Type} (l : List (String × α)) :
    fromEntries l = insertAll [] l := rfl

theorem insertAll_nil {α : Type} (acc : List (String × α)) : insertAll acc [] = acc := rfl

theorem insertAll_cons {α : Type} (acc : List (String × α)) (k : String) (v : α)
    (l : List (String × α)) :
    insertAll acc ((k, v) :: l) = insertAll (setEntry acc k v) l := rfl

theorem keyMem_nil {α : Type} (k : String) : keyMem k ([] : List (String × α)) = false := rfl

theorem keyMem_cons {α : Type} (k k' : String) (v : α) (l : List (String × α)) :
    keyMem k ((k', v) :: l) = (decide (k' = k) || keyMem k l) := rfl

theorem keyMem_append {α : Type} (k : String) (l m : List (String × α)) :
    keyMem k (l ++ m) = (keyMem k l || keyMem k m) := by
  simp [keyMem, List.any_append]

theorem setEntry_of_not_mem {α : Type} {k : String} {acc : List (String × α)}
    (v : α) (h : keyMem k acc = false) : setEntry acc k v = acc ++ [(k, v)] := by
  induction acc with
  | nil => rfl
  | cons p rest ih =>
    obtain ⟨k', v'⟩ := p
    rw [keyMem_cons, Bool.or_eq_false_iff] at h
    have hne : k' ≠ k := by simpa using h.1
    rw [setEntry, if_neg hne, ih h.2, List.cons_append]

theorem keyMem_setEntry {α : Type} (k' k : String) (v : α) (acc : List (String × α)) :
    keyMem k' (setEntry acc k v) = (keyMem k' acc || decide (k = k')) := by
  induction acc with
  | nil => simp [setEntry, keyMem_cons, keyMem_nil]
  | cons p rest ih =>
    obtain ⟨k'', v''⟩ := p
    rw [setEntry]
    by_cases he : k'' = k
    · subst he
      rw [if_pos rfl, keyMem_cons, keyMem_cons]
      cases hd : decide (k'' = k') <;> simp [hd]
    · rw [if_neg he, keyMem_cons, keyMem_cons, ih, Bool.or_assoc]

theorem nodupKeys_setEntry {α : Type} {acc : List (String × α)} (k : String) (v : α)
    (h : nodupKeys acc = true) : nodupKeys (setEntry acc k v) = true := by
  induction acc with
  | nil => rfl
  | cons p rest ih =>
    obtain ⟨k', v'⟩ := p
    rw [nodupKeys, Bool.and_eq_true] at h
    rw [setEntry]
    by_cases he : k' = k
    · subst he
      rw [if_pos rfl, nodupKeys, Bool.and_eq_true]
      exact ⟨h.1, h.2⟩
    · rw [if_neg he, nodupKeys, Bool.and_eq_true, keyMem_setEntry]
      refine ⟨?_, ih h.2⟩
      have hm : keyMem k' rest = false := by simpa using h.1
      simp [hm, Ne.symm he]

theorem mem_setEntry {α : Type} {p : String × α} {acc : List (String × α)} {k : String}
    {v : α} (h : p ∈ setEntry acc k v) : p ∈ acc ∨ p = (k, v) := by
  induction acc with
  | nil =>
    rw [setEntry, List.mem_singleton] at h
    exact Or.inr h
  | cons q rest ih =>
    obtain ⟨k', v'⟩ := q
    rw [setEntry] at h
    by_cases he : k' = k
    · rw [if_pos he, List.mem_cons] at h
      rcases h with h | h
      · exact Or.inr h
      · exact Or.inl (List.mem_cons_of_mem _ h)
    · rw [if_neg he, List.mem_cons] at h
      rcases h with h | h
      · exact Or.inl (h ▸ List.mem_cons_self _ _)
      · rcases ih h with h' | h'
        · exact Or.inl (List.mem_cons_of_mem _ h')
        · exact Or.inr h'

theorem nodupKeys_insertAll {α : Type} {acc : List (String × α)} (l : List (String × α))
    (h : nodupKeys acc = true) : nodupKeys (insertAll acc l) = true := by
  induction l generalizing acc with
  | nil => exact h
  | cons p rest ih =>
    obtain ⟨k, v⟩ := p
    rw [insertAll_cons]
    exact ih (nodupKeys_setEntry k v h)

theorem nodupKeys_fromEntries {α : Type} (l : List (String × α)) :
    nodupKeys (fromEntries l) = true := by
  rw [fromEntries_eq_insertAll]
  exact nodupKeys_insertAll l rfl

theorem insertAll_of_disjoint {α : Type} {l : List (String × α)} :
    ∀ {acc : List (String × α)}, nodupKeys l = true →
      (l.all fun p => !keyMem p.1 acc) = true → insertAll acc l = acc ++ l := by
  induction l with
  | nil => intro acc _ _; simp [insertAll_nil]
  | cons p rest ih =>
    intro acc hnd hdis
    obtain ⟨k, v⟩ := p
    rw [nodupKeys, Bool.and_eq_true] at hnd
    rw [List.all_cons, Bool.and_eq_true] at hdis
    have hk : keyMem k acc = false := by simpa using hdis.1
    rw [insertAll_cons, setEntry_of_not_mem v hk, ih hnd.2 ?_, List.append_assoc,
      List.singleton_append]
    rw [List.all_eq_true]
    intro q hq
    have h1 : keyMem q.1 acc = false := by
      have := List.all_eq_true.mp hdis.2 q hq
      simpa using this
    have h2 : q.1 ≠ k := by
      have hkm : ∀ a b, (a, b) ∈ rest → ¬ a = k := by simpa [keyMem] using hnd.1
      exact hkm q.1 q.2 hq
    rw [keyMem_append, keyMem_cons, keyMem_nil, h1]
    simp [Ne.symm h2]

theorem fromEntries_of_nodup {α : Type} {l : List (String × α)} (h : nodupKeys l = true) :
    fromEntries l = l := by
  rw [fromEntries_eq_insertAll, insertAll_of_disjoint h (by simp [keyMem_nil]),
    List.nil_append]

theorem mem_insertAll {α : Type} {p : String × α} {l : List (String × α)} :
    ∀ {acc : List (String × α)}, p ∈ insertAll acc l → p ∈ acc ∨ p ∈ l := by
  induction l with
  | nil => intro acc h; exact Or.inl h
  | cons q rest ih =>
    intro acc h
    obtain ⟨k, v⟩ := q
    rw [insertAll_cons] at h
    rcases ih h with h' | h'
    · rcases mem_setEntry h' with h'' | h''
      · exact Or.inl h''
      · exact Or.inr (h'' ▸ List.mem_cons_self _ _)
    · exact Or.inr (List.mem_cons_of_mem _ h')

theorem mem_fromEntries {α : Type} {p : String × α} {l : List (String × α)}
    (h : p ∈ fromEntries l) : p ∈ l := by
  rw [fromEntries_eq_insertAll] at h
  rcases mem_insertAll h with h' | h'
  · simp at h'
  · exact h'

theorem mapKV_nil {α β : Type} (φ : String → String) (ψ : α → β) :
    mapKV φ ψ [] = [] := rfl

theorem mapKV_cons {α β : Type} (φ : String → String) (ψ : α → β) (k : String) (v : α)
    (l : List (String × α)) :
    mapKV φ ψ ((k, v) :: l) = (φ k, ψ v) :: mapKV φ ψ l := rfl

theorem mapKV_setEntry {α β : Type} {φ : String → String} {ψ : α → β}
    {acc : List (String × α)} {k : String} (v : α)
    (h : ∀ p ∈ acc, φ p.1 = φ k → p.1 = k) :
    mapKV φ ψ (setEntry acc k v) = setEntry (mapKV φ ψ acc) (φ k) (ψ v) := by
  induction acc with
  | nil => rfl
  | cons q rest ih =>
    obtain ⟨k', v'⟩ := q
    rw [setEntry]
    by_cases he : k' = k
    · subst he
      rw [if_pos rfl, mapKV_cons, mapKV_cons, setEntry, if_pos rfl]
    · have hne : φ k' ≠ φ k := fun hφ => he (h (k', v') (List.mem_cons_self _ _) hφ)
      rw [if_neg he, mapKV_cons, mapKV_cons, setEntry, if_neg hne,
        ih (fun p hp => h p (List.mem_cons_of_mem _ hp))]

theorem mapKV_insertAll {α β : Type} {φ : String → String} {ψ : α → β} (K : List String)
    (hφ : ∀ a ∈ K, ∀ b ∈ K, φ a = φ b → a = b) {l : List (String × α)} :
    ∀ {acc : List (String × α)}, (∀ p ∈ acc, p.1 ∈ K) → (∀ p ∈ l, p.1 ∈ K) →
      mapKV φ ψ (insertAll acc l) = insertAll (mapKV φ ψ acc) (mapKV φ ψ l) := by
  induction l with
  | nil => intro acc _ _; rfl
  | cons q rest ih =>
    intro acc hacc hl
    obtain ⟨k, v⟩ := q
    rw [insertAll_cons, mapKV_cons, insertAll_cons,
      ← mapKV_setEntry v (fun p hp hφp => hφ p.1 (hacc p hp) k (hl (k, v)
        (List.mem_cons_self _ _)) hφp)]
    refine ih ?_ (fun p hp => hl p (List.mem_cons_of_mem _ hp))
    intro p hp
    rcases mem_setEntry hp with h' | h'
    · exact hacc p h'
    · rw [h']
      exact hl (k, v) (List.mem_cons_self _ _)

theorem mapKV_fromEntries {α β : Type} {φ : String → String} {ψ : α → β}
    {l : List (String × α)}
    (hφ : ∀ p ∈ l, ∀ q ∈ l, φ p.1 = φ q.1 → p.1 = q.1) :
    mapKV φ ψ (fromEntries l) = fromEntries (mapKV φ ψ l) := by
  rw [fromEntries_eq_insertAll, fromEntries_eq_insertAll]
  refine mapKV_insertAll (l.map Prod.fst) ?_ (by simp) ?_
  · intro a ha b hb hab
    rw [List.mem_map] at ha hb
    obtain ⟨p, hp, hpa⟩ := ha
    obtain ⟨q, hq, hqb⟩ := hb
    subst hpa hqb
    exact hφ p hp q hq hab
  · intro p hp
    exact List.mem_map_of_mem _ hp

/-- Collapsing duplicate keys before or after an injective key rename
gives the same object. -/
theorem fromEntries_mapKV_fromEntries {α β : Type} {φ : String → String} {ψ : α → β}
    {l : List (String × α)}
    (hφ : ∀ p ∈ l, ∀ q ∈ l, φ p.1 = φ q.1 → p.1 = q.1) :
    fromEntries (mapKV φ ψ (fromEntries l)) = fromEntries (mapKV φ ψ l) := by
  rw [mapKV_fromEntries hφ, fromEntries_of_nodup (nodupKeys_fromEntries _)]

/-! ## Bridging the mutual walks to `List.map` form -/

theorem keysToCamelList_eq_map (xs : List Json) :
    keysToCamelList xs = xs.map keysToCamel := by
  induction xs with
  | nil => rfl
  | cons x rest ih => rw [keysToCamelList, ih, List.map_cons]

theorem keysToSnakeList_eq_map (xs : List Json) :
    keysToSnakeList xs = xs.map keysToSnake := by
  induction xs with
  | nil => rfl
  | cons x rest ih => rw [keysToSnakeList, ih, List.map_cons]

theorem keysToCamelFields_eq_mapKV (fs : List (String × Json)) :
    keysToCamelFields fs = mapKV snakeToCamel keysToCamel fs := by
  induction fs with
  | nil => rfl
  | cons p rest ih =>
    obtain ⟨k, v⟩ := p
    rw [keysToCamelFields, ih, mapKV_cons]

theorem keysToSnakeFields_eq_mapKV (fs : List (String × Json)) :
    keysToSnakeFields fs = mapKV camelToSnake keysToSnake fs := by
  induction fs with
  | nil => rfl
  | cons p rest ih =>
    obtain ⟨k, v⟩ := p
    rw [keysToSnakeFields, ih, mapKV_cons]

theorem keysInClassList_iff {xs : List Json} :
    keysInClassList xs = true ↔ ∀ x ∈ xs, keysInClass x = true := by
  induction xs with
  | nil => simp [keysInClassList]
  | cons x rest ih => simp [keysInClassList, Bool.and_eq_true, ih]

theorem keysInClassFields_iff {fs : List (String × Json)} :
    keysInClassFields fs = true ↔
      ∀ p ∈ fs, inClassKey p.1 = true ∧ keysInClass p.2 = true := by
  induction fs with
  | nil => simp [keysInClassFields]
  | cons p rest ih =>
    obtain ⟨k, v⟩ := p
    simp [keysInClassFields, Bool.and_eq_true, ih, and_assoc]

theorem keysCamelList_iff {xs : List Json} :
    keysCamelList xs = true ↔ ∀ x ∈ xs, keysCamel x = true := by
  induction xs with
  | nil => simp [keysCamelList]
  | cons x rest ih => simp [keysCamelList, Bool.and_eq_true, ih]

theorem keysCamelFields_iff {fs : List (String × Json)} :
    keysCamelFields fs = true ↔
      ∀ p ∈ fs, noUnderscoreKey p.1 = true ∧ keysCamel p.2 = true := by
  induction fs with
  | nil => simp [keysCamelFields]
  | cons p rest ih =>
    obtain ⟨k, v⟩ := p
    simp [keysCamelFields, Bool.and_eq_true, ih, and_assoc]

theorem wfKeysList_iff {xs : List Json} :
    wfKeysList xs = true ↔ ∀ x ∈ xs, wfKeys x = true := by
  induction xs with
  | nil => simp [wfKeysList]
  | cons x rest ih => simp [wfKeysList, Bool.and_eq_true, ih]

theorem wfKeysFields_iff {fs : List (String × Json)} :
    wfKeysFields fs = true ↔ ∀ p ∈ fs, wfKeys p.2 = true := by
  induction fs with
  | nil => simp [wfKeysFields]
  | cons p rest ih =>
    obtain ⟨k, v⟩ := p
    simp [wfKeysFields, Bool.and_eq_true, ih]

theorem mapKV_mapKV {α β γ : Type} (φ φ' : String → String) (ψ : α → β) (ψ' : β → γ)
    (l : List (String × α)) :
    mapKV φ' ψ' (mapKV φ ψ l) = l.map fun p => (φ' (φ p.1), ψ' (ψ p.2)) := by
  simp [mapKV, List.map_map]

theorem nodupKeys_mapKV {α β : Type} {φ : String → String} {ψ : α → β}
    {l : List (String × α)}
    (hφ : ∀ p ∈ l, ∀ q ∈ l, φ p.1 = φ q.1 → p.1 = q.1)
    (h : nodupKeys l = true) : nodupKeys (mapKV φ ψ l) = true := by
  induction l with
  | nil => rfl
  | cons p rest ih =>
    obtain ⟨k, v⟩ := p
    rw [nodupKeys, Bool.and_eq_true] at h
    rw [mapKV_cons, nodupKeys, Bool.and_eq_true]
    constructor
    · have hkm : ∀ a b, (a, b) ∈ rest → ¬ a = k := by simpa [keyMem] using h.1
      have : keyMem (φ k) (mapKV φ ψ rest) = false := by
        rw [keyMem, List.any_eq_false]
        intro q' hq'
        rw [mapKV, List.mem_map] at hq'
        obtain ⟨q, hq, hq'eq⟩ := hq'
        subst hq'eq
        simp only [decide_eq_true_eq]
        intro hφq
        have := hφ q (List.mem_cons_of_mem _ hq) (k, v) (List.mem_cons_self _ _) hφq
        exact hkm q.1 q.2 hq this
      simp [this]
    · exact ih (fun p hp q hq => hφ p (List.mem_cons_of_mem _ hp) q
        (List.mem_cons_of_mem _ hq)) h.2

/-! ## Round-trip lemmas for the recursive key rewrites -/

theorem keysToSnake_keysToCamel_of_inClass :
    ∀ x, keysInClass x = true → keysToSnake (keysToCamel x) = keysToSnake x := by
  intro x
  induction x using Json.indMem with
  | hnull => intro _; rfl
  | hundef => intro _; rfl
  | hbool b => intro _; rfl
  | hnum n => intro _; rfl
  | hstr s => intro _; rfl
  | hdate d => intro _; rfl
  | harr elems ih =>
    intro h
    have hl := keysInClassList_iff.mp (by simpa [keysInClass] using h)
    rw [keysToCamel, keysToSnake, keysToSnake]
    congr 1
    rw [keysToSnakeList_eq_map, keysToSnakeList_eq_map, keysToCamelList_eq_map,
      List.map_map]
    exact List.map_congr_left (fun a ha => ih a ha (hl a ha))
  | hobj fields ih =>
    intro h
    have hf := keysInClassFields_iff.mp (by simpa [keysInClass] using h)
    rw [keysToCamel, keysToSnake, keysToSnake]
    congr 1
    rw [keysToSnakeFields_eq_mapKV, keysToSnakeFields_eq_mapKV, keysToCamelFields_eq_mapKV]
    have hinj : ∀ p ∈ mapKV snakeToCamel keysToCamel fields,
        ∀ q ∈ mapKV snakeToCamel keysToCamel fields,
        camelToSnake p.1 = camelToSnake q.1 → p.1 = q.1 := by
      intro p hp q hq hpq
      rw [mapKV, List.mem_map] at hp hq
      obtain ⟨p0, hp0, hpe⟩ := hp
      obtain ⟨q0, hq0, hqe⟩ := hq
      subst hpe hqe
      exact c2sKey_inj_on_noUnderscore
        (noUnderscoreKey_s2cKey_of_inClass (hf p0 hp0).1)
        (noUnderscoreKey_s2cKey_of_inClass (hf q0 hq0).1) hpq
    rw [fromEntries_mapKV_fromEntries hinj, mapKV_mapKV]
    congr 1
    rw [mapKV]
    refine List.map_congr_left ?_
    intro p hp
    rw [Prod.ext_iff]
    exact ⟨c2sKey_s2cKey_of_inClass (hf p hp).1, ih p hp (hf p hp).2⟩

theorem keysToCamel_keysToSnake_of_inClass :
    ∀ x, keysInClass x = true → keysToCamel (keysToSnake x) = keysToCamel x := by
  intro x
  induction x using Json.indMem with
  | hnull => intro _; rfl
  | hundef => intro _; rfl
  | hbool b => intro _; rfl
  | hnum n => intro _; rfl
  | hstr s => intro _; rfl
  | hdate d => intro _; rfl
  | harr elems ih =>
    intro h
    have hl := keysInClassList_iff.mp (by simpa [keysInClass] using h)
    rw [keysToSnake, keysToCamel, keysToCamel]
    congr 1
    rw [keysToCamelList_eq_map, keysToCamelList_eq_map, keysToSnakeList_eq_map,
      List.map_map]
    exact List.map_congr_left (fun a ha => ih a ha (hl a ha))
  | hobj fields ih =>
    intro h
    have hf := keysInClassFields_iff.mp (by simpa [keysInClass] using h)
    rw [keysToSnake, keysToCamel, keysToCamel]
    congr 1
    rw [keysToCamelFields_eq_mapKV, keysToCamelFields_eq_mapKV, keysToSnakeFields_eq_mapKV]
    have hinj : ∀ p ∈ mapKV camelToSnake keysToSnake fields,
        ∀ q ∈ mapKV camelToSnake keysToSnake fields,
        snakeToCamel p.1 = snakeToCamel q.1 → p.1 = q.1 := by
      intro p hp q hq hpq
      rw [mapKV, List.mem_map] at hp hq
      obtain ⟨p0, hp0, hpe⟩ := hp
      obtain ⟨q0, hq0, hqe⟩ := hq
      subst hpe hqe
      exact s2cKey_inj_on_goodSnake
        (goodSnakeKey_c2sKey_of_inClass (hf p0 hp0).1)
        (goodSnakeKey_c2sKey_of_inClass (hf q0 hq0).1) hpq
    rw [fromEntries_mapKV_fromEntries hinj, mapKV_mapKV]
    congr 1
    rw [mapKV]
    refine List.map_congr_left ?_
    intro p hp
    rw [Prod.ext_iff]
    exact ⟨s2cKey_c2sKey_of_inClass (hf p hp).1, ih p hp (hf p hp).2⟩

theorem c2sKey_c2sKey (k : String) :
    camelToSnake (camelToSnake k) = camelToSnake k := by
  apply String.ext
  rw [camelToSnake, camelToSnake, string_data_mk, string_data_mk,
    c2sL_of_noUpper (noUpperL_c2sL k.data)]

theorem keysToCamel_keysToSnake_id :
    ∀ x, keysCamel x = true → wfKeys x = true → keysToCamel (keysToSnake x) = x := by
  intro x
  induction x using Json.indMem with
  | hnull => intro _ _; rfl
  | hundef => intro _ _; rfl
  | hbool b => intro _ _; rfl
  | hnum n => intro _ _; rfl
  | hstr s => intro _ _; rfl
  | hdate d => intro _ _; rfl
  | harr elems ih =>
    intro hc hw
    have hcl := keysCamelList_iff.mp (by simpa [keysCamel] using hc)
    have hwl := wfKeysList_iff.mp (by simpa [wfKeys] using hw)
    rw [keysToSnake, keysToCamel]
    congr 1
    rw [keysToCamelList_eq_map, keysToSnakeList_eq_map, List.map_map]
    have : ∀ a ∈ elems, (keysToCamel ∘ keysToSnake) a = id a := by
      intro a ha
      exact ih a ha (hcl a ha) (hwl a ha)
    rw [List.map_congr_left this, List.map_id]
  | hobj fields ih =>
    intro hc hw
    have hcf := keysCamelFields_iff.mp (by simpa [keysCamel] using hc)
    have hw2 : nodupKeys fields = true ∧ wfKeysFields fields = true := by
      have : (nodupKeys fields && wfKeysFields fields) = true := by
        simpa [wfKeys] using hw
      exact Bool.and_eq_true _ _ |>.mp this
    have hwf := wfKeysFields_iff.mp hw2.2
    rw [keysToSnake, keysToCamel]
    have hinj : ∀ p ∈ fields, ∀ q ∈ fields,
        camelToSnake p.1 = camelToSnake q.1 → p.1 = q.1 := by
      intro p hp q hq hpq
      exact c2sKey_inj_on_noUnderscore (hcf p hp).1 (hcf q hq).1 hpq
    rw [keysToSnakeFields_eq_mapKV,
      fromEntries_of_nodup (nodupKeys_mapKV hinj hw2.1),
      keysToCamelFields_eq_mapKV, mapKV_mapKV]
    have : ∀ p ∈ fields,
        (fun p => (snakeToCamel (camelToSnake p.1), keysToCamel (keysToSnake p.2))) p
          = id p := by
      intro p hp
      rw [Prod.ext_iff]
      exact ⟨s2cKey_c2sKey_id_of_noUnderscore (hcf p hp).1,
        ih p hp (hcf p hp).2 (hwf p hp)⟩
    rw [List.map_congr_left this, List.map_id, fromEntries_of_nodup hw2.1]

/-- C10: keysToSnake is idempotent — for every JSON-like value built from
plain objects, arrays and scalars (and the opaque leaves), applying
keysToSnake twice equals applying it once, because camelToSnake produces
keys with no ASCII uppercase letters, so the second pass leaves every key
unchanged. -/
theorem keysToSnake_idem : ∀ x, keysToSnake (keysToSnake x) = keysToSnake x := by
  intro x
  induction x using Json.indMem with
  | hnull => rfl
  | hundef => rfl
  | hbool b => rfl
  | hnum n => rfl
  | hstr s => rfl
  | hdate d => rfl
  | harr elems ih =>
    rw [keysToSnake, keysToSnake]
    congr 1
    rw [keysToSnakeList_eq_map, keysToSnakeList_eq_map, List.map_map]
    exact List.map_congr_left (fun a ha => ih a ha)
  | hobj fields ih =>
    rw [keysToSnake, keysToSnake]
    congr 1
    have hfix : ∀ p ∈ fromEntries (keysToSnakeFields fields),
        (fun p => (camelToSnake p.1, keysToSnake p.2)) p = id p := by
      intro p hp
      have hp' := mem_fromEntries hp
      rw [keysToSnakeFields_eq_mapKV, mapKV, List.mem_map] at hp'
      obtain ⟨q, hq, hqe⟩ := hp'
      subst hqe
      rw [Prod.ext_iff]
      exact ⟨c2sKey_c2sKey q.1, ih q hq⟩
    rw [keysToSnakeFields_eq_mapKV (fromEntries (keysToSnakeFields fields)), mapKV,
      List.map_congr_left hfix, List.map_id,
      fromEntries_of_nodup (nodupKeys_fromEntries _)]

/-! ## Supporting lemmas for the claim theorems -/

theorem lookupEntry_setEntry_ne {α : Type} {k' k : String} (acc : List (String × α))
    (v : α) (h : k' ≠ k) : lookupEntry (setEntry acc k' v) k = lookupEntry acc k := by
  induction acc with
  | nil => simp [setEntry, lookupEntry, h]
  | cons p rest ih =>
    obtain ⟨k'', v''⟩ := p
    rw [setEntry]
    by_cases he : k'' = k'
    · subst he
      rw [if_pos rfl, lookupEntry, lookupEntry, if_neg h, if_neg h]
    · rw [if_neg he, lookupEntry, lookupEntry]
      by_cases hk : k'' = k
      · rw [if_pos hk, if_pos hk]
      · rw [if_neg hk, if_neg hk, ih]

theorem lookupEntry_insertAll_of_not_mem {α : Type} {k : String} {l : List (String × α)} :
    ∀ {acc : List (String × α)}, keyMem k l = false →
      lookupEntry (insertAll acc l) k = lookupEntry acc k := by
  induction l with
  | nil => intro acc _; rfl
  | cons p rest ih =>
    intro acc h
    obtain ⟨k', v⟩ := p
    rw [keyMem_cons, Bool.or_eq_false_iff] at h
    have hk : k' ≠ k := by simpa using h.1
    rw [insertAll_cons, ih h.2, lookupEntry_setEntry_ne acc v hk]

theorem keyMem_eq_false_of_lookup_none {α : Type} {k : String} {l : List (String × α)}
    (h : lookupEntry l k = none) : keyMem k l = false := by
  induction l with
  | nil => rfl
  | cons p rest ih =>
    obtain ⟨k', v⟩ := p
    rw [lookupEntry] at h
    by_cases he : k' = k
    · rw [if_pos he] at h
      exact absurd h (by simp)
    · rw [if_neg he] at h
      rw [keyMem_cons, ih h]
      simp [he]

theorem insertAll_append {α : Type} (acc l m : List (String × α)) :
    insertAll acc (l ++ m) = insertAll (insertAll acc l) m := by
  simp [insertAll, List.foldl_append]

/-- Property reads on a nullish base: in the source these sit behind
optional chaining (`errorBody.error?.code`), which yields `undefined`;
the model's `jsGet` returns `undef` there. -/
theorem jsGet_of_nullish {j : Json} (h : jsNullish j = true) (k : String) :
    jsGet j k = .undef := by
  cases j <;> simp_all [jsNullish, jsGet, getField]

/-- The ok, non-204 branch of `apiClient` on a body parsing to a
non-null value. -/
theorem apiClient_ok_body {status : Nat} (statusText : String) (j : Json)
    (hok : responseOk status = true) (h204 : status ≠ 204) (hnn : jsNullish j = false) :
    apiClient (.response status statusText (some j))
      = .success (keysToCamel (match getField j "data" with | some d => d | none => j)) := by
  rw [apiClient.eq_def]
  dsimp only
  rw [if_neg (by simp [hok]), if_neg (by simpa using h204), if_neg (by simp [hnn])]

/-- The ok, non-204 branch of `apiClient` on a body parsing to JSON
`null`: the `json.data` read throws a `TypeError` that escapes. -/
theorem apiClient_ok_body_null {status : Nat} (statusText : String) {j : Json}
    (hok : responseOk status = true) (h204 : status ≠ 204) (hn : jsNullish j = true) :
    apiClient (.response status statusText (some j)) = .rejectedOther := by
  rw [apiClient.eq_def]
  dsimp only
  rw [if_neg (by simp [hok]), if_neg (by simpa using h204), if_pos hn]

/-- The non-ok branch of `apiClient` on a body that does not parse to
JSON `null`. -/
theorem apiClient_error_body {status : Nat} (statusText : String) (body : Option Json)
    (hok : responseOk status = false)
    (hnn : jsNullish (body.getD (.obj [])) = false) :
    apiClient (.response status statusText body)
      = .rejectedApi ⟨status,
          jsOr (jsGet (jsGet (body.getD (.obj [])) "error") "code") (.str "UNKNOWN"),
          jsOr (jsGet (jsGet (body.getD (.obj [])) "error") "message") (.str statusText)⟩ := by
  rw [apiClient.eq_def]
  dsimp only
  rw [if_pos (by simp [hok]), if_neg (by simp [hnn])]

/-- The non-ok branch of `apiClient` on a body parsing to JSON `null`:
the `errorBody.error` base read throws a `TypeError` that escapes. -/
theorem apiClient_error_body_null {status : Nat} (statusText : String) {body : Option Json}
    (hok : responseOk status = false)
    (hn : jsNullish (body.getD (.obj [])) = true) :
    apiClient (.response status statusText body) = .rejectedOther := by
  rw [apiClient.eq_def]
  dsimp only
  rw [if_pos (by simp [hok]), if_pos hn]

/-! ## The claims -/

/-- C1: the code bug behind the refresh-persistence claim, evaluated at a
concrete failing input.  Stored tokens `"expired"`/`"R0"`, cached email
`"a@b.com"`; the profile fetch rejects with a 401 `ApiError`; the refresh
endpoint answers 200 with wire body
`{access_token: "A2", refresh_token: "R2"}`; the retried profile fetch
succeeds with `{id: "u1"}`.  The run does end Authenticated, but because
`apiClient` camelizes the refresh payload to
`{accessToken, refreshToken}` while `restoreSession` reads
`data.access_token`/`data.refresh_token`, `localStorage.setItem`
stringifies `undefined` and the Credential Record ends holding the string
`"undefined"` under both keys — not the new tokens `"A2"`/`"R2"` the
claim (and the spec) require. -/
theorem restoreSession_refresh_persists_undefined :
    restoreSession ⟨some "expired", some "R0", some "a@b.com"⟩
      ⟨.rejectedApi ⟨401, .str "UNAUTHORIZED", .str "token expired"⟩,
       apiClient (.response 200 "OK" (some (.obj
         [("access_token", .str "A2"), ("refresh_token", .str "R2")]))),
       apiClient (.response 200 "OK" (some (.obj [("id", .str "u1")])))⟩
    = ⟨⟨some "undefined", some "undefined", some "a@b.com"⟩,
       .obj [("id", .str "u1"), ("email", .str "a@b.com")], false⟩ ∧
    ("undefined" : String) ≠ "A2" :=
  ⟨rfl, by decide⟩

/-- C2: the code bug behind the sign-in claim, evaluated at a concrete
failing input.  The login endpoint answers 200 with wire body
`{access_token: "A1", refresh_token: "R1", user: {id: "u1", email:
"e@x.com"}}`.  `apiClient` delivers the camelized payload
`{accessToken, refreshToken, user}`, so `signIn`'s reads of
`data.access_token`/`data.refresh_token` yield `undefined` and the
Credential Record ends holding the string `"undefined"` under
`access_token` and `refresh_token` — not the returned tokens.  The email
and the session user are set correctly. -/
theorem signIn_stores_undefined_tokens :
    signIn ⟨none, none, none⟩
      (apiClient (.response 200 "OK" (some (.obj
        [("access_token", .str "A1"), ("refresh_token", .str "R1"),
         ("user", .obj [("id", .str "u1"), ("email", .str "e@x.com")])]))))
    = .ok ⟨some "undefined", some "undefined", some "e@x.com"⟩
        (.obj [("id", .str "u1"), ("email", .str "e@x.com")]) ∧
    ("undefined" : String) ≠ "A1" :=
  ⟨rfl, by decide⟩

/-- C3 (counterexample): three exchanges on which `apiClient` rejects
with something that is not an `ApiError` (modelled `rejectedOther`): a
200 response whose body is not parseable JSON (the success-path
`await response.json()` is not wrapped in `try`/`catch`, so the
`SyntaxError` escapes); a 200 response whose body is the valid JSON text
`null` (the `json.data` read throws a `TypeError` on the null base); and
a 500 response whose body is the JSON text `null` (the
`errorBody.error` base read is not behind optional chaining and throws a
`TypeError`). -/
theorem apiClient_non_apierror_escapes :
    apiClient (.response 200 "OK" none) = .rejectedOther ∧
    apiClient (.response 200 "OK" (some .null)) = .rejectedOther ∧
    apiClient (.response 500 "Internal Server Error" (some .null)) = .rejectedOther :=
  ⟨rfl, rfl, rfl⟩

/-- C3 (amended): `apiClient` resolves or rejects with an `ApiError` for
every behaviour of the underlying exchange EXCEPT the escaping
body-handling exceptions: on a success-status (2xx), non-204 response, an
unparseable body (escaping `SyntaxError`) or a body parsing to JSON
`null`/`undefined`-like nullish value (escaping `TypeError` at
`json.data`); and on a non-2xx response, a body parsing to such a nullish
value (escaping `TypeError` at the `errorBody.error` base read).  Stated
as a characterization: the non-`ApiError` rejection happens precisely on
those cases (`JSON.parse` itself can only produce `null`, never
`undefined`). -/
theorem apiClient_rejectedOther_iff :
    ∀ f, apiClient f = .rejectedOther ↔
      ∃ status statusText body, f = .response status statusText body ∧
        ((responseOk status = true ∧ status ≠ 204 ∧
            (body = none ∨ ∃ j, body = some j ∧ jsNullish j = true)) ∨
         (responseOk status = false ∧ ∃ j, body = some j ∧ jsNullish j = true)) := by
  intro f
  have hinv : ∀ (s : Nat) (st : String) (b : Option Json),
      (∃ status statusText body,
        FetchOutcome.response s st b = .response status statusText body ∧
          ((responseOk status = true ∧ status ≠ 204 ∧
              (body = none ∨ ∃ j, body = some j ∧ jsNullish j = true)) ∨
           (responseOk status = false ∧ ∃ j, body = some j ∧ jsNullish j = true))) →
      ((responseOk s = true ∧ s ≠ 204 ∧
          (b = none ∨ ∃ j, b = some j ∧ jsNullish j = true)) ∨
       (responseOk s = false ∧ ∃ j, b = some j ∧ jsNullish j = true)) := by
    rintro s st b ⟨status, statusText, body, heq, hdis⟩
    injection heq with h1 h2 h3
    subst h1
    subst h3
    exact hdis
  cases f with
  | networkFailure => simp [apiClient]
  | response s st body =>
    rw [apiClient.eq_def]
    dsimp only
    by_cases hok : responseOk s = true
    · rw [if_neg (by simp [hok])]
      by_cases h204 : s = 204
      · subst h204
        rw [if_pos (by simp)]
        refine iff_of_false (by simp) ?_
        intro hex
        rcases hinv 204 st body hex with ⟨_, habs, _⟩ | ⟨hof, _⟩
        · exact habs rfl
        · exact absurd hof (by simp [hok])
      · rw [if_neg (by simpa using h204)]
        cases body with
        | none =>
          refine iff_of_true rfl ?_
          exact ⟨s, st, none, rfl, Or.inl ⟨hok, h204, Or.inl rfl⟩⟩
        | some j =>
          dsimp only
          by_cases hn : jsNullish j = true
          · rw [if_pos hn]
            refine iff_of_true rfl ?_
            exact ⟨s, st, some j, rfl, Or.inl ⟨hok, h204, Or.inr ⟨j, rfl, hn⟩⟩⟩
          · rw [if_neg hn]
            refine iff_of_false (by simp) ?_
            intro hex
            rcases hinv s st (some j) hex with ⟨_, _, hb | ⟨j', hb, hj'⟩⟩ | ⟨hof, _⟩
            · exact Option.noConfusion hb
            · injection hb with hjj
              exact hn (by rw [hjj]; exact hj')
            · exact absurd hof (by simp [hok])
    · have hok' : responseOk s = false := by
        cases hr : responseOk s
        · rfl
        · exact absurd hr hok
      rw [if_pos (by simp [hok'])]
      cases body with
      | none =>
        rw [if_neg (by simp [jsNullish])]
        refine iff_of_false (by simp) ?_
        intro hex
        rcases hinv s st none hex with ⟨hot, _⟩ | ⟨_, j', hb, _⟩
        · exact absurd hot hok
        · exact Option.noConfusion hb
      | some j =>
        by_cases hn : jsNullish j = true
        · rw [if_pos (by simpa using hn)]
          refine iff_of_true rfl ?_
          exact ⟨s, st, some j, rfl, Or.inr ⟨hok', j, rfl, hn⟩⟩
        · rw [if_neg (by simpa using hn)]
          refine iff_of_false (by simp) ?_
          intro hex
          rcases hinv s st (some j) hex with ⟨hot, _⟩ | ⟨_, j', hb, hj'⟩
          · exact absurd hot hok
          · injection hb with hjj
            exact hn (by rw [hjj]; exact hj')

/-- C4: on nested structures whose object keys lie in the restricted
class (well-formed snake_case or underscore-free camelCase), keysToSnake
and keysToCamel are mutually inverse: converting to camelCase first does
not change the snake_case image, converting to snake_case first does not
change the camelCase image, and on an already-camelCase-keyed structure
(with the distinct keys any JavaScript object has) the camel–snake–camel
round trip returns the original value exactly. -/
theorem keyCasing_round_trip :
    ∀ x : Json,
      (keysInClass x = true →
        keysToSnake (keysToCamel x) = keysToSnake x ∧
        keysToCamel (keysToSnake x) = keysToCamel x) ∧
      (keysCamel x = true → wfKeys x = true → keysToCamel (keysToSnake x) = x) :=
  fun x =>
    ⟨fun h => ⟨keysToSnake_keysToCamel_of_inClass x h,
      keysToCamel_keysToSnake_of_inClass x h⟩,
     fun hc hw => keysToCamel_keysToSnake_id x hc hw⟩

/-- C4 (witness): the round trip evaluated at concrete mixed-key and
camelCase-keyed structures. -/
theorem keyCasing_round_trip_witness :
    (keysToSnake (keysToCamel (.obj [("user_id", .num 1),
        ("fooBar", .arr [.obj [("a_b", .str "v"), ("cD", .bool true)]])]))
      = keysToSnake (.obj [("user_id", .num 1),
        ("fooBar", .arr [.obj [("a_b", .str "v"), ("cD", .bool true)]])]) ∧
     keysToCamel (keysToSnake (.obj [("user_id", .num 1),
        ("fooBar", .arr [.obj [("a_b", .str "v"), ("cD", .bool true)]])]))
      = keysToCamel (.obj [("user_id", .num 1),
        ("fooBar", .arr [.obj [("a_b", .str "v"), ("cD", .bool true)]])])) ∧
    keysToCamel (keysToSnake (.obj [("fooBar", .num 1), ("baz", .arr [.str "s"])]))
      = .obj [("fooBar", .num 1), ("baz", .arr [.str "s"])] :=
  ⟨(keyCasing_round_trip _).1 rfl, (keyCasing_round_trip _).2 rfl rfl⟩

/-- C5 (counterexample): a 500 response whose body exposes
`error.code = ""` and `error.message = "boom"` — both fields present —
is rejected with code `"UNKNOWN"`, not the server-declared `""`: the `||`
fallback in the source fires on every falsy value, not only on an absent
one, so "exactly that server-declared code" is false for an
empty-string code. -/
theorem apiClient_empty_code_counterexample :
    apiClient (.response 500 "Internal Server Error" (some (.obj
      [("error", .obj [("code", .str ""), ("message", .str "boom")])])))
    = .rejectedApi ⟨500, .str "UNKNOWN", .str "boom"⟩ ∧
    Json.str "UNKNOWN" ≠ Json.str "" :=
  ⟨rfl, fun h => absurd (congrArg jsString h) (by decide)⟩

/-- C5 (amended): on a response whose status is outside the success
range, `apiClient` rejects with an `ApiError` carrying the response
status and: the server-declared `error.code` and `error.message` when
those parse to truthy values (e.g. non-empty strings); the fallbacks
`"UNKNOWN"` and the response's status text when the body does not parse;
and, independently per field, the fallback whenever the field is missing
or falsy (e.g. the empty string) — provided the body did not parse to
JSON `null`, in which case no `ApiError` is produced at all: the
`errorBody.error` base read throws a `TypeError` that escapes. -/
theorem apiClient_error_classification :
    ∀ (status : Nat) (statusText : String) (body : Option Json),
      responseOk status = false →
      (∀ j c m, body = some j →
        jsGet (jsGet j "error") "code" = c → truthy c = true →
        jsGet (jsGet j "error") "message" = m → truthy m = true →
        apiClient (.response status statusText body) = .rejectedApi ⟨status, c, m⟩) ∧
      (body = none →
        apiClient (.response status statusText body)
          = .rejectedApi ⟨status, .str "UNKNOWN", .str statusText⟩) ∧
      (∀ j, body = some j → jsNullish j = false →
        truthy (jsGet (jsGet j "error") "code") = false →
        ∃ m, apiClient (.response status statusText body)
          = .rejectedApi ⟨status, .str "UNKNOWN", m⟩) ∧
      (∀ j, body = some j → jsNullish j = false →
        truthy (jsGet (jsGet j "error") "message") = false →
        ∃ c, apiClient (.response status statusText body)
          = .rejectedApi ⟨status, c, .str statusText⟩) ∧
      (∀ j, body = some j → jsNullish j = true →
        apiClient (.response status statusText body) = .rejectedOther) := by
  intro status statusText body hok
  refine ⟨?_, ?_, ?_, ?_, ?_⟩
  · intro j c m hb hc htc hm htm
    subst hb
    subst hc
    subst hm
    by_cases hn : jsNullish j = true
    · rw [jsGet_of_nullish hn, @jsGet_of_nullish Json.undef rfl] at htc
      exact absurd htc (by decide)
    · rw [apiClient_error_body statusText _ hok (by simpa using hn)]
      simp [Option.getD, jsOr, htc, htm]
  · intro hb
    subst hb
    rw [apiClient_error_body statusText none hok rfl]
    rfl
  · intro j hb hnn hfc
    subst hb
    rw [apiClient_error_body statusText _ hok (by simpa using hnn)]
    exact ⟨jsOr (jsGet (jsGet j "error") "message") (.str statusText),
      by simp [Option.getD, jsOr, hfc]⟩
  · intro j hb hnn hfm
    subst hb
    rw [apiClient_error_body statusText _ hok (by simpa using hnn)]
    exact ⟨jsOr (jsGet (jsGet j "error") "code") (.str "UNKNOWN"),
      by simp [Option.getD, jsOr, hfm]⟩
  · intro j hb hn
    subst hb
    exact apiClient_error_body_null statusText hok (by simpa using hn)

/-- C5 (witness): the classification applied at concrete inputs — a
server-declared error surfaced verbatim, an unparseable 502 body falling
back to UNKNOWN with the reason phrase, and a 500 body of JSON `null`
escaping as a non-`ApiError`. -/
theorem apiClient_error_classification_witness :
    apiClient (.response 404 "Not Found" (some (.obj
      [("error", .obj [("code", .str "NO_SUCH"), ("message", .str "gone")])])))
      = .rejectedApi ⟨404, .str "NO_SUCH", .str "gone"⟩ ∧
    apiClient (.response 502 "Bad Gateway" none)
      = .rejectedApi ⟨502, .str "UNKNOWN", .str "Bad Gateway"⟩ ∧
    apiClient (.response 500 "Internal Server Error" (some .null)) = .rejectedOther :=
  ⟨(apiClient_error_classification 404 "Not Found" _ rfl).1 _ _ _ rfl rfl rfl rfl rfl,
   (apiClient_error_classification 502 "Bad Gateway" none rfl).2.1 rfl,
   (apiClient_error_classification 500 "Internal Server Error"
     (some .null) rfl).2.2.2.2 Json.null rfl rfl⟩

/-- C6: when an access token is stored (a truthy value) and the initial
profile fetch fails with anything that is not a 401 `ApiError` — a
server error such as 500, a network error (status 0), or a non-`ApiError`
exception — `restoreSession` leaves the whole Credential Record exactly
as it was and ends with the session user
`{id: "unknown", email: <cached email, or "" when none is cached>}` and
`loading = false`. -/
theorem restoreSession_nonauth_failure :
    ∀ (st : Store) (t : String) (env : RestoreEnv),
      st.access_token = some t → t ≠ "" →
      (env.profile1 = .rejectedOther ∨
        ∃ s c m, env.profile1 = .rejectedApi ⟨s, c, m⟩ ∧ s ≠ 401) →
      restoreSession st env =
        ⟨st, .obj [("id", .str "unknown"), ("email", .str (st.user_email.getD ""))],
          false⟩ := by
  intro st t env htok hne hfail
  have h1 : strTruthy st.access_token = true := by
    rw [htok]
    simpa [strTruthy] using hne
  rw [restoreSession, if_neg (by simp [h1])]
  rcases hfail with hro | ⟨s, c, m, hra, hs⟩
  · rw [hro]
  · rw [hra]
    dsimp only
    rw [if_neg (by simpa using hs)]

/-- C6 (witness): a 500 server error during restoration, evaluated at a
concrete store. -/
theorem restoreSession_nonauth_failure_witness :
    restoreSession ⟨some "tok", some "R", some "a@b.com"⟩
      ⟨.rejectedApi ⟨500, .str "DB_DOWN", .str "boom"⟩, .rejectedOther, .rejectedOther⟩
    = ⟨⟨some "tok", some "R", some "a@b.com"⟩,
       .obj [("id", .str "unknown"), ("email", .str "a@b.com")], false⟩ :=
  restoreSession_nonauth_failure ⟨some "tok", some "R", some "a@b.com"⟩ "tok" _
    rfl (by decide) (Or.inr ⟨500, .str "DB_DOWN", .str "boom", rfl, by decide⟩)

/-- C7: whatever the outcome of the best-effort logout call — resolution,
an `ApiError` rejection, or any other exception — `signOut` ends with all
three storage keys absent and the session user set to `null`. -/
theorem signOut_always_clears :
    ∀ (st : Store) (logoutOutcome : ApiOutcome),
      signOut st logoutOutcome = (Store.mk none none none, Json.null) := by
  intro st logoutOutcome
  cases st
  cases logoutOutcome <;> rfl

/-- C8 (counterexample): the claimed iff between the stored token and the
Authorization header fails on two concrete requests: with an empty
string stored under `access_token` the request carries no Authorization
header (the `!token` guard treats `""` as absent although a value is
stored), and with no token stored but caller-supplied headers containing
an Authorization entry, the spread `...headers` puts that entry on the
request. -/
theorem buildHeaders_authorization_counterexample :
    lookupEntry (buildHeaders (some "") []) "Authorization" = none ∧
    lookupEntry (buildHeaders none [("Authorization", "Custom x")]) "Authorization"
      = some "Custom x" :=
  ⟨rfl, rfl⟩

/-- C8 (amended): for every request whose caller-supplied extra headers
do not themselves set an Authorization entry (true of every call the
repository issues — the convenience api.get/post/patch/delete pass no
headers), the outgoing headers carry `Authorization: Bearer t` exactly
when a truthy (non-empty) token `t` is stored under `access_token`, and
no Authorization header at all when the key is absent or holds the empty
string. -/
theorem buildHeaders_authorization :
    ∀ (access_token : Option String) (extra : List (String × String)),
      lookupEntry extra "Authorization" = none →
      (∀ t, access_token = some t → t ≠ "" →
        lookupEntry (buildHeaders access_token extra) "Authorization"
          = some ("Bearer " ++ t)) ∧
      ((access_token = none ∨ access_token = some "") →
        lookupEntry (buildHeaders access_token extra) "Authorization" = none) := by
  intro access_token extra hext
  have hmem := keyMem_eq_false_of_lookup_none hext
  constructor
  · intro t htok hne
    subst htok
    rw [buildHeaders, fromEntries_eq_insertAll, insertAll_append,
      lookupEntry_insertAll_of_not_mem hmem, getAuthHeaders, if_neg hne]
    rfl
  · intro hcase
    rcases hcase with h | h <;> subst h <;>
      rw [buildHeaders, fromEntries_eq_insertAll, insertAll_append,
        lookupEntry_insertAll_of_not_mem hmem] <;> rfl

/-- C8 (witness): the amended header rule at concrete tokens. -/
theorem buildHeaders_authorization_witness :
    lookupEntry (buildHeaders (some "tok123") []) "Authorization" = some "Bearer tok123" ∧
    lookupEntry (buildHeaders none []) "Authorization" = none :=
  ⟨(buildHeaders_authorization (some "tok123") [] rfl).1 "tok123" rfl (by decide),
   (buildHeaders_authorization none [] rfl).2 (Or.inl rfl)⟩

/-- C9 (counterexample): a 200 response whose body is the valid JSON
text `null` parses to `null`, which exposes no `data` field, so the
claim requires `apiClient` to resolve with the key-camelized body
(`null`); instead the source throws a `TypeError` at the `json.data`
read (line `const data = json.data !== undefined ? json.data : json`),
and the promise rejects with a non-`ApiError` exception. -/
theorem apiClient_null_body_counterexample :
    apiClient (.response 200 "OK" (some .null)) = .rejectedOther ∧
    ApiOutcome.rejectedOther ≠ ApiOutcome.success (keysToCamel .null) :=
  ⟨rfl, fun h => ApiOutcome.noConfusion h⟩

/-- C9 (amended): on a success-status (2xx, non-204) response whose body
parses to a value `j` other than JSON `null`, `apiClient` resolves with
the key-camelized `data` field of `j` when `j` exposes one, and with the
key-camelized `j` itself otherwise — in particular an enveloped
`{success: true, data: {a: 1}}` and a bare `{a: 1}` both decode to
`{a: 1}`.  When the body parses to JSON `null`, the `json.data` read
throws a `TypeError` that escapes instead of resolving. -/
theorem apiClient_unwraps_data :
    ∀ (status : Nat) (statusText : String) (j : Json),
      responseOk status = true → status ≠ 204 →
      (jsNullish j = false →
        (∀ d, getField j "data" = some d →
          apiClient (.response status statusText (some j)) = .success (keysToCamel d)) ∧
        (getField j "data" = none →
          apiClient (.response status statusText (some j)) = .success (keysToCamel j))) ∧
      (jsNullish j = true →
        apiClient (.response status statusText (some j)) = .rejectedOther) := by
  intro status statusText j hok h204
  constructor
  · intro hnn
    constructor
    · intro d hd
      rw [apiClient_ok_body statusText j hok h204 hnn, hd]
    · intro hd
      rw [apiClient_ok_body statusText j hok h204 hnn, hd]
  · intro hn
    exact apiClient_ok_body_null statusText hok h204 hn

/-- C9 (witness): the two decode examples of the claim, and the escaping
null-body case. -/
theorem apiClient_unwraps_data_witness :
    apiClient (.response 200 "OK" (some (.obj
      [("success", .bool true), ("data", .obj [("a", .num 1)])])))
      = .success (.obj [("a", .num 1)]) ∧
    apiClient (.response 200 "OK" (some (.obj [("a", .num 1)])))
      = .success (.obj [("a", .num 1)]) ∧
    apiClient (.response 200 "OK" (some .null)) = .rejectedOther :=
  ⟨((apiClient_unwraps_data 200 "OK" (.obj [("success", .bool true),
      ("data", .obj [("a", .num 1)])]) rfl (by decide)).1 rfl).1 (.obj [("a", .num 1)]) rfl,
   ((apiClient_unwraps_data 200 "OK" (.obj [("a", .num 1)]) rfl (by decide)).1 rfl).2 rfl,
   (apiClient_unwraps_data 200 "OK" .null rfl (by decide)).2 rfl⟩
